import Mathlib

/-!
Verification of the kiwi constraint-solver binding (`src/py/src/solver.cpp`)
against its natural-language specification.

The repository source shows the Python binding layer; the Cassowary solver
core it wraps (`kiwi::Solver`) is not part of the shown sources, so the core
operations are modelled from the specification (sections 3 to 7): symbols,
rows, tableau, the add/remove/edit/suggest operations and the simplex
re-optimization loops.  Real-valued quantities are modelled as rationals.
All loops are given explicit fuel so every definition is total and
executable.
-/

set_option autoImplicit false

namespace Kiwi

/-- Rational addition, written through `Rat.divInt` so that every value the
model computes is evaluable inside the kernel (the library's `Rat.add` is
sealed against unfolding); `qAdd_eq` below proves it equal to `+`. -/
def qAdd (a b : ℚ) : ℚ := Rat.divInt (a.num * b.den + b.num * a.den) (a.den * b.den)

/-- Rational multiplication through `Rat.divInt`; `qMul_eq` proves it equal
to `*`. -/
def qMul (a b : ℚ) : ℚ := Rat.divInt (a.num * b.num) (a.den * b.den)

/-- Rational division through `Rat.divInt` (0 when the divisor is 0);
`qDiv_eq` proves it equal to `/`. -/
def qDiv (a b : ℚ) : ℚ := Rat.divInt (a.num * b.den) (a.den * b.num)

/-- Modelled from the spec: symbol kinds of the solver core (spec section 3,
"Symbol": tag ∈ \x7bInvalid, External, Slack, Error, Dummy\x7d). -/
inductive SymTy where
  | invalid
  | external
  | slack
  | error
  | dummy
deriving DecidableEq, Repr

/-- Modelled from the spec: a tableau symbol, a kind plus a generation id
unique within a solver's lifetime (spec section 3). -/
structure Sym where
  ty : SymTy
  id : Nat
deriving DecidableEq, Repr

/-- The invalid placeholder symbol (generation id 0 is never allocated). -/
def Sym.nil : Sym := ⟨SymTy.invalid, 0⟩

/-- Cells of a row: an association list from symbols to nonzero rational
coefficients, kept strictly sorted by ascending generation id so all
iteration orders are deterministic (spec sections 3 and 4.3). -/
abbrev Cells : Type := List (Sym × ℚ)

/-- Add `c` to the coefficient of `sym`, inserting in sorted position and
pruning the entry when the result is zero (spec: "coefficients of exactly 0
are pruned eagerly"). -/
def addCell (sym : Sym) (c : ℚ) : Cells → Cells
  | [] => if c = 0 then [] else [(sym, c)]
  | (s, v) :: rest =>
    if sym.id < s.id then
      (if c = 0 then (s, v) :: rest else (sym, c) :: (s, v) :: rest)
    else if sym.id = s.id then
      (if qAdd v c = 0 then rest else (s, qAdd v c) :: rest)
    else
      (s, v) :: addCell sym c rest

/-- Coefficient lookup in a cell list (0 when absent). -/
def cellCoeff (sym : Sym) : Cells → ℚ
  | [] => 0
  | (s, v) :: rest => if s.id = sym.id then v else cellCoeff sym rest

/-- Remove the cell for `sym`, if present. -/
def dropCell (sym : Sym) : Cells → Cells
  | [] => []
  | (s, v) :: rest => if s.id = sym.id then rest else (s, v) :: dropCell sym rest

/-- Modelled from the spec: a tableau row, a rational constant plus sorted
cells (spec section 3, "Row"). -/
structure Row where
  constant : ℚ
  cells : Cells
deriving DecidableEq, Repr

/-- The empty row. -/
def Row.zero : Row := ⟨0, []⟩

/-- Add a value to the row constant, returning the new constant paired with
the updated row (the core's `Row::add` returns the new constant so callers
can test feasibility). -/
def Row.addConst (r : Row) (v : ℚ) : Row := ⟨qAdd r.constant v, r.cells⟩

/-- Insert a symbol with a coefficient, merging with any existing cell. -/
def Row.insertSymbol (r : Row) (sym : Sym) (c : ℚ) : Row :=
  ⟨r.constant, addCell sym c r.cells⟩

/-- Add `coeff` times another row into this row (linear combination). -/
def Row.insertRow (r : Row) (other : Row) (coeff : ℚ) : Row :=
  other.cells.foldl (fun acc cell => Row.insertSymbol acc cell.1 (qMul cell.2 coeff))
    ⟨qAdd r.constant (qMul other.constant coeff), r.cells⟩

/-- Remove a symbol's cell from the row. -/
def Row.removeSymbol (r : Row) (sym : Sym) : Row :=
  ⟨r.constant, dropCell sym r.cells⟩

/-- Negate the whole row. -/
def Row.reverseSign (r : Row) : Row :=
  ⟨-r.constant, r.cells.map (fun cell => (cell.1, -cell.2))⟩

/-- Coefficient of `sym` in the row (0 when absent). -/
def Row.coefficientFor (r : Row) (sym : Sym) : ℚ :=
  cellCoeff sym r.cells

/-- Scale the whole row by a nonzero factor. -/
def Row.scale (r : Row) (k : ℚ) : Row :=
  ⟨qMul r.constant k, r.cells.map (fun cell => (cell.1, qMul cell.2 k))⟩

/-- Solve the row for `sym`: make `sym` the basic variable of the row
(spec section 4.2; the core's `Row::solveFor`). -/
def Row.solveFor (r : Row) (sym : Sym) : Row :=
  let k : ℚ := qDiv (-1) (r.coefficientFor sym)
  (r.removeSymbol sym).scale k

/-- Solve the row for `rhs` after inserting `lhs` with coefficient -1
(the core's two-argument `Row::solveFor`, used while pivoting). -/
def Row.solveForEx (r : Row) (lhs rhs : Sym) : Row :=
  (r.insertSymbol lhs (-1)).solveFor rhs

/-- Substitute every occurrence of `sym` in the row by the given row
(spec section 4.2: full substitution keeps rows expressed purely in
non-basic symbols). -/
def Row.substitute (r : Row) (sym : Sym) (other : Row) : Row :=
  let c := r.coefficientFor sym
  if c = 0 then r else (r.removeSymbol sym).insertRow other c

/-- Relational operator of a constraint (spec section 3: operator ∈ \x7bLE, GE, EQ\x7d). -/
inductive RelOp where
  | le
  | ge
  | eq
deriving DecidableEq, Repr

/-- Modelled from the spec: clamp a strength component to the legal range
(spec section 4.1). -/
def clampComp (x : ℚ) : ℚ := if x < 0 then 0 else if 1000 < x then 1000 else x

/-- Modelled from the spec: combine weighted strong/medium/weak components
into a single totally-ordered scalar (spec sections 3 and 4.1). -/
def Strength.create (a b c w : ℚ) : ℚ :=
  qAdd (qAdd (qMul (clampComp (qMul a w)) 1000000) (qMul (clampComp (qMul b w)) 1000))
    (clampComp (qMul c w))

/-- Modelled from the spec: the distinguished maximal "required" sentinel,
greater than any finite combination of the soft levels (spec section 4.1). -/
def Strength.required : ℚ := 1001001000

def Strength.strong : ℚ := Strength.create 1 0 0 1

def Strength.medium : ℚ := Strength.create 0 1 0 1

def Strength.weak : ℚ := Strength.create 0 0 1 1

/-- Clamp an arbitrary strength below the required sentinel (spec 4.1 `clip`). -/
def Strength.clip (s : ℚ) : ℚ :=
  if Strength.required < s then Strength.required else s

/-- The payload of a constraint: expression normalized to `expr op 0`
(terms are variable-id/coefficient pairs), operator and strength
(spec section 3, "Constraint"). -/
structure CnData where
  terms : List (Nat × ℚ)
  constant : ℚ
  op : RelOp
  strength : ℚ
deriving DecidableEq, Repr

/-- A caller-owned constraint object.  Identity is the numeric `id`: the
solver's maps key on identity, never structural equality (spec sections 3
and 9), so two structurally identical constraints with different ids are
distinct. -/
structure UserCn where
  id : Nat
  data : CnData
deriving DecidableEq, Repr

/-- Identity key of a caller constraint inside the solver's constraint map.
User constraints occupy the even keys. -/
def cnKeyUser (n : Nat) : Nat := 2 * n

/-- Identity key of the synthetic edit constraint backing the edit variable
`v`.  Synthetic constraints are fresh objects in the source, so their
identities occupy the odd keys, disjoint from every caller constraint. -/
def cnKeyEdit (v : Nat) : Nat := 2 * v + 1

/-- Modelled from the spec: per-constraint bookkeeping pair of the marker
and other symbols introduced at insertion (spec section 3, "Tag"). -/
structure Tag where
  marker : Sym
  other : Sym
deriving DecidableEq, Repr

/-- Modelled from the spec: per edit-variable record of the synthetic edit
constraint (spec section 3, "EditInfo"); the synthetic constraint itself is
retained as its tag, strength and current target constant. -/
structure EditInfo where
  tag : Tag
  strength : ℚ
  constant : ℚ
deriving DecidableEq, Repr

/-- Association-list lookup over Nat keys. -/
def lookupN {V : Type} (k : Nat) : List (Nat × V) → Option V
  | [] => none
  | e :: rest => if e.1 = k then some e.2 else lookupN k rest

/-- Sorted association-list insertion over Nat keys (replaces on equal key). -/
def insertN {V : Type} (k : Nat) (v : V) : List (Nat × V) → List (Nat × V)
  | [] => [(k, v)]
  | e :: rest =>
    if k < e.1 then (k, v) :: e :: rest
    else if k = e.1 then (k, v) :: rest
    else e :: insertN k v rest

/-- Remove the entry with the given Nat key. -/
def dropN {V : Type} (k : Nat) : List (Nat × V) → List (Nat × V)
  | [] => []
  | e :: rest => if e.1 = k then rest else e :: dropN k rest

/-- Tableau lookup by basic symbol (symbol ids are unique). -/
def lookupRow (sym : Sym) : List (Sym × Row) → Option Row
  | [] => none
  | e :: rest => if e.1.id = sym.id then some e.2 else lookupRow sym rest

/-- Sorted tableau insertion keyed by the basic symbol's generation id. -/
def insertRowEntry (sym : Sym) (r : Row) : List (Sym × Row) → List (Sym × Row)
  | [] => [(sym, r)]
  | e :: rest =>
    if sym.id < e.1.id then (sym, r) :: e :: rest
    else if sym.id = e.1.id then (sym, r) :: rest
    else e :: insertRowEntry sym r rest

/-- Remove the tableau row basic in `sym`. -/
def dropRowEntry (sym : Sym) : List (Sym × Row) → List (Sym × Row)
  | [] => []
  | e :: rest => if e.1.id = sym.id then rest else e :: dropRowEntry sym rest

/-- Modelled from the spec: the tableau-side state of the solver core — the
rows keyed by basic symbol, the objective row, the transient artificial
objective, the pending infeasible-row working set, the external-variable
symbol map, and the monotonic symbol generator (spec section 3). -/
structure Tab where
  rows : List (Sym × Row)
  objective : Row
  artRow : Option Row
  infeasible : List Sym
  vars : List (Nat × Sym)
  tick : Nat
deriving DecidableEq, Repr

/-- Modelled from the spec: full solver state — tableau plus the
constraint-to-Tag map, the edit-variable map, and the caller-visible
variable values written back by `updateVariables` (spec section 3). -/
structure SolverState where
  tab : Tab
  cns : List (Nat × Tag)
  edits : List (Nat × EditInfo)
  varValues : Nat → ℚ

/-- The failure taxonomy of the solver core (spec section 7). -/
inductive Err where
  | duplicateConstraint
  | unsatisfiableConstraint
  | unknownConstraint
  | duplicateEditVariable
  | unknownEditVariable
  | badRequiredStrength
deriving DecidableEq, Repr

/-- The empty tableau; generation ids start at 1 (0 is the invalid symbol). -/
def initTab : Tab := ⟨[], Row.zero, none, [], [], 1⟩

/-- The initial empty solver state; caller-owned variables start at value 0. -/
def initState : SolverState := ⟨initTab, [], [], fun _ => 0⟩

/-- Modelled from the spec: the symbol representing an external variable,
allocating a fresh External symbol on first reference (spec section 4.2). -/
def getVarSymbol (v : Nat) (t : Tab) : Sym × Tab :=
  match lookupN v t.vars with
  | some s => (s, t)
  | none =>
    let s : Sym := ⟨SymTy.external, t.tick⟩
    (s, { t with vars := insertN v s t.vars, tick := t.tick + 1 })

/-- Modelled from the spec: fold a constraint's terms into a row, replacing
any symbol that is currently basic by that row's contents (spec section
4.2); zero-coefficient terms are inert (spec section 3). -/
def createRowTerms (r : Row) (t : Tab) : List (Nat × ℚ) → Row × Tab
  | [] => (r, t)
  | (v, c) :: rest =>
    if c = 0 then createRowTerms r t rest
    else
      let p := getVarSymbol v t
      let r' :=
        match lookupRow p.1 p.2.rows with
        | some basicRow => r.insertRow basicRow c
        | none => r.insertSymbol p.1 c
      createRowTerms r' p.2 rest

/-- Modelled from the spec: build the row for a constraint, introducing the
slack/error/dummy symbols dictated by the operator and strength, weighting
error symbols into the objective, and normalizing a negative constant by
sign reversal (spec sections 4.2 and 4.3 step 3). -/
def createRow (d : CnData) (t0 : Tab) : Row × Tag × Tab :=
  let p := createRowTerms ⟨d.constant, []⟩ t0 d.terms
  let r1 := p.1
  let t1 := p.2
  let res : Row × Tag × Tab :=
    match d.op with
    | RelOp.eq =>
      if d.strength < Strength.required then
        let ep : Sym := ⟨SymTy.error, t1.tick⟩
        let em : Sym := ⟨SymTy.error, t1.tick + 1⟩
        (((r1.insertSymbol ep (-1)).insertSymbol em 1), ⟨ep, em⟩,
          { t1 with
            tick := t1.tick + 2,
            objective :=
              (t1.objective.insertSymbol ep d.strength).insertSymbol em d.strength })
      else
        let dm : Sym := ⟨SymTy.dummy, t1.tick⟩
        ((r1.insertSymbol dm 1), ⟨dm, Sym.nil⟩, { t1 with tick := t1.tick + 1 })
    | _ =>
      let coeff : ℚ := if d.op = RelOp.le then 1 else -1
      let slack : Sym := ⟨SymTy.slack, t1.tick⟩
      let r2 := r1.insertSymbol slack coeff
      if d.strength < Strength.required then
        let er : Sym := ⟨SymTy.error, t1.tick + 1⟩
        ((r2.insertSymbol er (-coeff)), ⟨slack, er⟩,
          { t1 with
            tick := t1.tick + 2,
            objective := t1.objective.insertSymbol er d.strength })
      else
        (r2, ⟨slack, Sym.nil⟩, { t1 with tick := t1.tick + 1 })
  let final := if res.1.constant < 0 then res.1.reverseSign else res.1
  (final, res.2)

/-- First external symbol of a cell list, in ascending generation order. -/
def firstExternal : Cells → Sym
  | [] => Sym.nil
  | (s, _) :: rest => if s.ty = SymTy.external then s else firstExternal rest

/-- Modelled from the spec: choose the subject symbol for a new row — the
first external symbol, else a slack/error marker or other symbol with a
negative coefficient, else invalid (spec section 4.3). -/
def chooseSubject (r : Row) (tag : Tag) : Sym :=
  let ext := firstExternal r.cells
  if ext.ty = SymTy.external then ext
  else if (tag.marker.ty = SymTy.slack ∨ tag.marker.ty = SymTy.error)
      ∧ r.coefficientFor tag.marker < 0 then tag.marker
  else if (tag.other.ty = SymTy.slack ∨ tag.other.ty = SymTy.error)
      ∧ r.coefficientFor tag.other < 0 then tag.other
  else Sym.nil

/-- Whether every cell of the row is a dummy symbol. -/
def allDummies (r : Row) : Bool :=
  r.cells.all (fun cell => cell.1.ty == SymTy.dummy)

/-- First slack or error symbol of a cell list (a pivotable column). -/
def anyPivotable : Cells → Sym
  | [] => Sym.nil
  | (s, _) :: rest =>
    if s.ty = SymTy.slack ∨ s.ty = SymTy.error then s else anyPivotable rest

/-- Substitute `sym := row` into every tableau row, collecting the basic
symbols of non-external rows whose constant became negative.  The returned
symbol list is in pop order: rows visited later pop first, matching the
core's back-of-vector working stack. -/
def substRows (sym : Sym) (row : Row) : List (Sym × Row) → List (Sym × Row) × List Sym
  | [] => ([], [])
  | e :: rest =>
    let p := substRows sym row rest
    if e.2.coefficientFor sym = 0 then (e :: p.1, p.2)
    else
      let r' := e.2.substitute sym row
      ((e.1, r') :: p.1,
        if ¬ e.1.ty = SymTy.external ∧ r'.constant < 0 then p.2 ++ [e.1] else p.2)

/-- Modelled from the spec: substitute a symbol out of every row, the
objective, and the transient artificial objective, maintaining the
"always expressed in non-basic symbols" invariant (spec sections 4.2 and
4.3 step 6); newly infeasible rows join the pending working set. -/
def substituteOut (sym : Sym) (row : Row) (t : Tab) : Tab :=
  let p := substRows sym row t.rows
  { t with
    rows := p.1,
    infeasible := p.2 ++ t.infeasible,
    objective := t.objective.substitute sym row,
    artRow := t.artRow.map (fun a => a.substitute sym row) }

/-- First non-dummy cell with a negative coefficient, in ascending
generation order (the entering symbol of the primal optimization loop,
spec section 4.3 step 7). -/
def firstNegNonDummy : Cells → Sym
  | [] => Sym.nil
  | (s, c) :: rest =>
    if ¬ s.ty = SymTy.dummy ∧ c < 0 then s else firstNegNonDummy rest

/-- Ratio-test scan for the leaving row of a primal pivot: among
non-external basic rows with a negative coefficient on the entering
symbol, minimize -constant/coefficient; ties keep the earlier (lower
generation id) row (spec section 4.3 step 7). -/
def leavingScan (entering : Sym) :
    List (Sym × Row) → Option (ℚ × Sym × Row) → Option (ℚ × Sym × Row)
  | [], best => best
  | e :: rest, best =>
    let c := e.2.coefficientFor entering
    if ¬ e.1.ty = SymTy.external ∧ c < 0 then
      let ratio := qDiv (-e.2.constant) c
      match best with
      | none => leavingScan entering rest (some (ratio, e))
      | some b =>
        if ratio < b.1 then leavingScan entering rest (some (ratio, e))
        else leavingScan entering rest best
    else leavingScan entering rest best

/-- The objective row driving an optimization pass: the artificial row
while one is active, otherwise the real objective. -/
def objForSel (t : Tab) (useArt : Bool) : Row :=
  if useArt then t.artRow.getD Row.zero else t.objective

/-- One primal pivot of the optimization loop; `none` when no improving
pivot exists (spec section 4.3 step 7).  An entering column with no
feasible leaving row would be an unbounded objective, a condition outside
the spec's failure taxonomy, so the loop simply stops there. -/
def optimizeStep (useArt : Bool) (t : Tab) : Option Tab :=
  let entering := firstNegNonDummy (objForSel t useArt).cells
  if entering.ty = SymTy.invalid then none
  else
    match leavingScan entering t.rows none with
    | none => none
    | some b =>
      let leaving := b.2.1
      let t1 := { t with rows := dropRowEntry leaving t.rows }
      let r := b.2.2.solveForEx leaving entering
      let t2 := substituteOut entering r t1
      some { t2 with rows := insertRowEntry entering r t2.rows }

/-- Modelled from the spec: the primal optimization loop — repeatedly pivot
in the most eligible improving column until no improving pivot exists
(spec section 4.3 step 7), with explicit fuel for totality. -/
def optimize (fuel : Nat) (useArt : Bool) (t : Tab) : Tab :=
  match fuel with
  | 0 => t
  | fuel + 1 =>
    match optimizeStep useArt t with
    | none => t
    | some t' => optimize fuel useArt t'

/-- Entering-symbol scan of a dual pivot: among non-dummy cells with a
positive coefficient, minimize objective-coefficient/coefficient; ties
keep the earlier symbol (spec section 4.5). -/
def dualEnteringScan (obj : Row) :
    Cells → Option (ℚ × Sym) → Option (ℚ × Sym)
  | [], best => best
  | (s, c) :: rest, best =>
    if ¬ s.ty = SymTy.dummy ∧ 0 < c then
      let ratio := qDiv (obj.coefficientFor s) c
      match best with
      | none => dualEnteringScan obj rest (some (ratio, s))
      | some b =>
        if ratio < b.1 then dualEnteringScan obj rest (some (ratio, s))
        else dualEnteringScan obj rest best
    else dualEnteringScan obj rest best

/-- Modelled from the spec: the bounded dual-simplex re-optimization — pop
pending infeasible rows and repair each row whose constant went negative by
a dual pivot (spec section 4.5), with explicit fuel for totality.  A row
with no dual entering symbol is unreachable in normal operation; the model
stops there, since the spec's taxonomy has no internal failure. -/
def dualOptimize (fuel : Nat) (t : Tab) : Tab :=
  match fuel with
  | 0 => t
  | fuel + 1 =>
    match t.infeasible with
    | [] => t
    | leaving :: rest =>
      let t0 := { t with infeasible := rest }
      match lookupRow leaving t0.rows with
      | none => dualOptimize fuel t0
      | some row =>
        if row.constant < 0 then
          match dualEnteringScan t0.objective row.cells none with
          | none => t0
          | some b =>
            let entering := b.2
            let t1 := { t0 with rows := dropRowEntry leaving t0.rows }
            let r := row.solveForEx leaving entering
            let t2 := substituteOut entering r t1
            dualOptimize fuel { t2 with rows := insertRowEntry entering r t2.rows }
        else dualOptimize fuel t0

/-- Remove the artificial symbol's leftover cells from all rows and the
objective after an artificial-variable insertion. -/
def scrubArt (art : Sym) (t : Tab) : Tab :=
  { t with
    rows := t.rows.map (fun e => (e.1, e.2.removeSymbol art)),
    objective := t.objective.removeSymbol art }

/-- Modelled from the spec: attempt to make an unassignable row feasible by
optimizing an artificial objective to zero (spec section 4.3 steps 4 and
5).  Returns whether a feasible pivot sequence was found, together with the
updated tableau; the caller discards the tableau on failure. -/
def addWithArtificial (fuel : Nat) (row : Row) (t0 : Tab) : Bool × Tab :=
  let art : Sym := ⟨SymTy.slack, t0.tick⟩
  let t1 :=
    { t0 with
      tick := t0.tick + 1,
      rows := insertRowEntry art row t0.rows,
      artRow := some row }
  let t2 := optimize fuel true t1
  let success := (t2.artRow.getD Row.zero).constant = 0
  let t3 := { t2 with artRow := none }
  match lookupRow art t3.rows with
  | some r =>
    let t4 := { t3 with rows := dropRowEntry art t3.rows }
    if r.cells = ([] : Cells) then (success, t4)
    else
      let entering := anyPivotable r.cells
      if entering.ty = SymTy.invalid then (false, t4)
      else
        let r' := r.solveForEx art entering
        let t5 := substituteOut entering r' t4
        (success, scrubArt art { t5 with rows := insertRowEntry entering r' t5.rows })
  | none => (success, scrubArt art t3)

/-- Fuel used by the public operations; ample for every concrete tableau in
this development, and irrelevant to the claims proved below. -/
def defaultFuel : Nat := 200

/-- Whether the solver tracks a constraint with the given identity key. -/
def hasCnKey (s : SolverState) (k : Nat) : Bool := (lookupN k s.cns).isSome

/-- Record the new constraint's tag and run the primal re-optimization
(spec section 4.3 steps 6 and 7). -/
def recordAndOptimize (fuel : Nat) (key : Nat) (tag : Tag) (t : Tab)
    (s : SolverState) : SolverState :=
  { s with tab := optimize fuel false t, cns := insertN key tag s.cns }

/-- Insert the new row keyed by the chosen subject, substituting it into
every row that references the subject (spec section 4.3 step 6). -/
def finishAdd (fuel : Nat) (key : Nat) (tag : Tag) (subject : Sym) (row : Row)
    (t : Tab) (s : SolverState) : Option Err × SolverState :=
  let r := row.solveFor subject
  let t1 := substituteOut subject r t
  let t2 := { t1 with rows := insertRowEntry subject r t1.rows }
  (none, recordAndOptimize fuel key tag t2 s)

/-- Modelled from the spec: the addConstraint state machine (spec section
4.3).  On `UnsatisfiableConstraint` the solver state is left exactly as it
was before the call — the partially built tableau (fresh symbols, objective
error weights) is discarded (spec sections 4.3 step 5 and 7). -/
def addCnCore (fuel : Nat) (key : Nat) (d : CnData) (s : SolverState) :
    Option Err × SolverState :=
  if hasCnKey s key then (some Err.duplicateConstraint, s)
  else
    let p := createRow d s.tab
    let row := p.1
    let tag := p.2.1
    let t1 := p.2.2
    let subject0 := chooseSubject row tag
    if subject0.ty = SymTy.invalid ∧ allDummies row then
      if ¬ row.constant = 0 then (some Err.unsatisfiableConstraint, s)
      else finishAdd fuel key tag tag.marker row t1 s
    else if subject0.ty = SymTy.invalid then
      let ar := addWithArtificial fuel row t1
      if ar.1 then (none, recordAndOptimize fuel key tag ar.2 s)
      else (some Err.unsatisfiableConstraint, s)
    else finishAdd fuel key tag subject0 row t1 s

/-- Public `addConstraint` (spec sections 4.3 and 6). -/
def addConstraint (c : UserCn) (s : SolverState) : Option Err × SolverState :=
  addCnCore defaultFuel (cnKeyUser c.id) c.data s

/-- Remove an error symbol's weighted contribution from the objective row
(spec section 4.4). -/
def removeMarkerEffects (marker : Sym) (strength : ℚ) (t : Tab) : Tab :=
  match lookupRow marker t.rows with
  | some r => { t with objective := t.objective.insertRow r (-strength) }
  | none => { t with objective := t.objective.insertSymbol marker (-strength) }

/-- Remove a removed constraint's error-symbol contributions from the
objective (spec section 4.4). -/
def removeCnEffects (tag : Tag) (strength : ℚ) (t : Tab) : Tab :=
  let t1 :=
    if tag.marker.ty = SymTy.error then removeMarkerEffects tag.marker strength t
    else t
  if tag.other.ty = SymTy.error then removeMarkerEffects tag.other strength t1
  else t1

/-- Accumulators of the marker leaving-row scan: preferred (negative
coefficient) candidate, fallback (positive coefficient) candidate, and a
last-resort external row. -/
structure MLR where
  first : Option (ℚ × Sym × Row)
  second : Option (ℚ × Sym × Row)
  third : Option (Sym × Row)

/-- Ratio-test scan for the row that lets a removed constraint's marker
symbol leave the basis (spec section 4.4). -/
def markerScan (marker : Sym) : List (Sym × Row) → MLR → MLR
  | [], acc => acc
  | e :: rest, acc =>
    let c := e.2.coefficientFor marker
    if c = 0 then markerScan marker rest acc
    else if e.1.ty = SymTy.external then
      markerScan marker rest { acc with third := some e }
    else if c < 0 then
      let r := qDiv (-e.2.constant) c
      match acc.first with
      | none => markerScan marker rest { acc with first := some (r, e) }
      | some b =>
        if r < b.1 then markerScan marker rest { acc with first := some (r, e) }
        else markerScan marker rest acc
    else
      let r := qDiv e.2.constant c
      match acc.second with
      | none => markerScan marker rest { acc with second := some (r, e) }
      | some b =>
        if r < b.1 then markerScan marker rest { acc with second := some (r, e) }
        else markerScan marker rest acc

/-- The row chosen to substitute a removed constraint's marker symbol out
of the basis, when the marker is not itself basic (spec section 4.4). -/
def getMarkerLeavingRow (marker : Sym) (rows : List (Sym × Row)) :
    Option (Sym × Row) :=
  let m := markerScan marker rows ⟨none, none, none⟩
  match m.first with
  | some b => some b.2
  | none =>
    match m.second with
    | some b => some b.2
    | none => m.third

/-- Modelled from the spec: the removeConstraint state machine (spec
section 4.4), shared by constraint removal and edit-variable removal.  A
marker occurring in no row leaves nothing to substitute, so the model does
nothing there (the core flags that unreachable case as an internal error,
which is outside the spec's taxonomy). -/
def removeCnCore (fuel : Nat) (key : Nat) (strength : ℚ) (s : SolverState) :
    Option Err × SolverState :=
  match lookupN key s.cns with
  | none => (some Err.unknownConstraint, s)
  | some tag =>
    let s1 : SolverState := { s with cns := dropN key s.cns }
    let t1 := removeCnEffects tag strength s1.tab
    let t2 :=
      match lookupRow tag.marker t1.rows with
      | some _ => { t1 with rows := dropRowEntry tag.marker t1.rows }
      | none =>
        match getMarkerLeavingRow tag.marker t1.rows with
        | none => t1
        | some e =>
          let t1' := { t1 with rows := dropRowEntry e.1 t1.rows }
          let r := e.2.solveForEx e.1 tag.marker
          substituteOut tag.marker r t1'
    (none, { s1 with tab := optimize fuel false t2 })

/-- Public `removeConstraint` (spec sections 4.4 and 6). -/
def removeConstraint (c : UserCn) (s : SolverState) : Option Err × SolverState :=
  removeCnCore defaultFuel (cnKeyUser c.id) c.data.strength s

/-- Whether the given caller constraint is currently tracked. -/
def hasConstraintB (s : SolverState) (c : UserCn) : Bool :=
  hasCnKey s (cnKeyUser c.id)

/-- Public `hasConstraint` (spec section 6): a pure membership query with a
boolean result and no failure kind; the state is untouched. -/
def hasConstraintOp (c : UserCn) (s : SolverState) :
    Option Err × SolverState × Bool :=
  (none, s, hasConstraintB s c)

/-- Whether the given variable currently has an edit entry. -/
def hasEditVariableB (s : SolverState) (v : Nat) : Bool :=
  (lookupN v s.edits).isSome

/-- Public `hasEditVariable` (spec section 6). -/
def hasEditVariableOp (v : Nat) (s : SolverState) :
    Option Err × SolverState × Bool :=
  (none, s, hasEditVariableB s v)

/-- Modelled from the spec: `addEditVariable` (spec section 4.5) — fail on
a duplicate entry or on (clipped) required strength, otherwise add the
synthetic equality `variable == current value` at the given strength and
record the EditInfo.  The internal add cannot fail (the row always holds
the variable's external symbol or a soft error symbol with a negative
coefficient); on that unreachable failure the entry is recorded against the
rolled-back state. -/
def addEditVariable (v : Nat) (strength : ℚ) (s : SolverState) :
    Option Err × SolverState :=
  if hasEditVariableB s v then (some Err.duplicateEditVariable, s)
  else
    let st := Strength.clip strength
    if st = Strength.required then (some Err.badRequiredStrength, s)
    else
      let curVal := s.varValues v
      let d : CnData := ⟨[(v, 1)], -curVal, RelOp.eq, st⟩
      let p := addCnCore defaultFuel (cnKeyEdit v) d s
      let s1 := p.2
      let tag := (lookupN (cnKeyEdit v) s1.cns).getD ⟨Sym.nil, Sym.nil⟩
      (none, { s1 with edits := insertN v ⟨tag, st, curVal⟩ s1.edits })

/-- Modelled from the spec: `removeEditVariable` (spec section 4.5) — fail
when absent, otherwise remove the synthetic constraint and the EditInfo. -/
def removeEditVariable (v : Nat) (s : SolverState) : Option Err × SolverState :=
  match lookupN v s.edits with
  | none => (some Err.unknownEditVariable, s)
  | some info =>
    let p := removeCnCore defaultFuel (cnKeyEdit v) info.strength s
    (none, { p.2 with edits := dropN v p.2.edits })

/-- Shift every row containing the edit marker by `delta` times its
coefficient, collecting non-external rows whose constant went negative, in
pop order (spec section 4.5). -/
def adjustRows (marker : Sym) (delta : ℚ) :
    List (Sym × Row) → List (Sym × Row) × List Sym
  | [] => ([], [])
  | e :: rest =>
    let p := adjustRows marker delta rest
    let c := e.2.coefficientFor marker
    if c = 0 then (e :: p.1, p.2)
    else
      let r' := e.2.addConst (qMul delta c)
      ((e.1, r') :: p.1,
        if r'.constant < 0 ∧ ¬ e.1.ty = SymTy.external then p.2 ++ [e.1] else p.2)

/-- Modelled from the spec: `suggestValue` (spec section 4.5) — update the
edit's target constant by the delta, shift the rows containing the edit's
marker or other symbol, and run the bounded dual-simplex re-optimization
restricted to the rows that became infeasible. -/
def suggestValue (v : Nat) (value : ℚ) (s : SolverState) :
    Option Err × SolverState :=
  match lookupN v s.edits with
  | none => (some Err.unknownEditVariable, s)
  | some info =>
    let delta := qAdd value (-info.constant)
    let s1 : SolverState :=
      { s with edits := insertN v { info with constant := value } s.edits }
    let t := s1.tab
    let t' :=
      match lookupRow info.tag.marker t.rows with
      | some r =>
        let r' := r.addConst (-delta)
        let t1 := { t with rows := insertRowEntry info.tag.marker r' t.rows }
        if r'.constant < 0 then
          { t1 with infeasible := info.tag.marker :: t1.infeasible }
        else t1
      | none =>
        match lookupRow info.tag.other t.rows with
        | some r =>
          let r' := r.addConst delta
          let t1 := { t with rows := insertRowEntry info.tag.other r' t.rows }
          if r'.constant < 0 then
            { t1 with infeasible := info.tag.other :: t1.infeasible }
          else t1
        | none =>
          let p := adjustRows info.tag.marker delta t.rows
          { t with rows := p.1, infeasible := p.2 ++ t.infeasible }
    (none, { s1 with tab := dualOptimize defaultFuel t' })

/-- The solved value represented by a symbol: the constant of the row it is
basic in, or 0 while it is non-basic (spec section 4.6). -/
def varVal (rows : List (Sym × Row)) (sym : Sym) : ℚ :=
  match lookupRow sym rows with
  | some r => r.constant
  | none => 0

/-- Write each tracked variable's solved value into the caller-visible
value function. -/
def writeVars (rows : List (Sym × Row)) :
    List (Nat × Sym) → (Nat → ℚ) → Nat → ℚ
  | [], f => f
  | e :: rest, f =>
    writeVars rows rest (fun x => if x = e.1 then varVal rows e.2 else f x)

/-- Modelled from the spec: `updateVariables` (spec section 4.6) — write
each tracked external variable's value from its row's constant, or 0 when
it has no row; it signals no failure. -/
def updateVariables (s : SolverState) : SolverState :=
  { s with varValues := writeVars s.tab.rows s.tab.vars s.varValues }

/-- Modelled from the spec: `reset` (spec section 4.6) — clear all
solver-owned state back to empty, leaving caller-owned variable values
untouched. -/
def reset (s : SolverState) : SolverState :=
  { initState with varValues := s.varValues }

/-- From `Solver_new` in `src/py/src/solver.cpp`: constructing a Solver
rejects any positional or keyword argument with a type error and otherwise
yields a solver in the initial empty state.  `kwargs` is `none` when no
keyword dictionary was passed at all. -/
def solverNew (nargs : Nat) (kwargs : Option Nat) : Except String SolverState :=
  if nargs ≠ 0 ∨ ¬ kwargs.getD 0 = 0 then
    Except.error "Solver.__new__ takes no arguments"
  else Except.ok initState

/-- Insert into a list sorted by a Nat key, keeping earlier elements first
on ties. -/
def insSorted {α : Type} (key : α → Nat) (a : α) : List α → List α
  | [] => [a]
  | b :: rest =>
    if key a ≤ key b then a :: b :: rest else b :: insSorted key a rest

/-- Insertion sort by a Nat key. -/
def sortByKey {α : Type} (key : α → Nat) : List α → List α
  | [] => []
  | a :: rest => insSorted key a (sortByKey key rest)

def symTyLetter : SymTy → String
  | SymTy.invalid => "i"
  | SymTy.external => "v"
  | SymTy.slack => "s"
  | SymTy.error => "e"
  | SymTy.dummy => "d"

def renderSym (s : Sym) : String := symTyLetter s.ty ++ toString s.id

def renderCell (c : Sym × ℚ) : String := toString c.2 ++ " * " ++ renderSym c.1

/-- Diagnostic text of one tableau row: basic symbol, constant, terms. -/
def renderRowEntry (e : Sym × Row) : String :=
  renderSym e.1 ++ " = " ++ toString e.2.constant
    ++ String.join (e.2.cells.map (fun c => " + " ++ renderCell c))

/-- Diagnostic text of one constraint's Tag. -/
def renderTagEntry (e : Nat × Tag) : String :=
  "cn" ++ toString e.1 ++ ": marker " ++ renderSym e.2.marker
    ++ ", other " ++ renderSym e.2.other

/-- Diagnostic text of one edit variable's EditInfo. -/
def renderEditEntry (e : Nat × EditInfo) : String :=
  "var" ++ toString e.1 ++ ": marker " ++ renderSym e.2.tag.marker
    ++ ", constant " ++ toString e.2.constant

/-- Modelled from the spec: the lines of the diagnostic dump — every
tableau row, every constraint's Tag, and every edit variable's EditInfo,
each section in ascending symbol-generation (respectively key) order so
the text is a pure, stable function of the internal state (spec section
6). -/
def dumpLines (s : SolverState) : List String :=
  (sortByKey (fun e => e.1.id) s.tab.rows).map renderRowEntry
    ++ (sortByKey (fun e => e.2.marker.id) s.cns).map renderTagEntry
    ++ (sortByKey (fun e => e.1) s.edits).map renderEditEntry

/-- Modelled from the spec: `dumps` (spec section 6), the diagnostic text. -/
def dumps (s : SolverState) : String := String.intercalate "\n" (dumpLines s)

/-- The public operation set (spec section 4.6), as trace elements. -/
inductive Op where
  | addCn (c : UserCn)
  | removeCn (c : UserCn)
  | hasCn (c : UserCn)
  | addEdit (v : Nat) (strength : ℚ)
  | removeEdit (v : Nat)
  | hasEdit (v : Nat)
  | suggest (v : Nat) (value : ℚ)
  | update
  | resetOp
  | dumpsOp

/-- The state reached after one public operation (query operations leave
the state untouched; failed mutations roll back, per spec section 7). -/
def stepOp (s : SolverState) : Op → SolverState
  | Op.addCn c => (addConstraint c s).2
  | Op.removeCn c => (removeConstraint c s).2
  | Op.hasCn _ => s
  | Op.addEdit v st => (addEditVariable v st s).2
  | Op.removeEdit v => (removeEditVariable v s).2
  | Op.hasEdit _ => s
  | Op.suggest v q => (suggestValue v q s).2
  | Op.update => updateVariables s
  | Op.resetOp => reset s
  | Op.dumpsOp => s

/-- Run a trace of public operations from a starting state. -/
def runOps (s : SolverState) : List Op → SolverState
  | [] => s
  | op :: rest => runOps (stepOp s op) rest

/-- The spec-side membership tracker for a constraint identity: true after
a successful `addConstraint` of a constraint with that identity, false
after a successful `removeConstraint` of it or a `reset`, untouched by
every other operation. -/
def trackCn (i : Nat) (acc : Bool) (s : SolverState) : List Op → Bool
  | [] => acc
  | op :: rest =>
    let acc' :=
      match op with
      | Op.addCn c => if c.id = i ∧ (addConstraint c s).1 = none then true else acc
      | Op.removeCn c =>
        if c.id = i ∧ (removeConstraint c s).1 = none then false else acc
      | Op.resetOp => false
      | _ => acc
    trackCn i acc' (stepOp s op) rest

/-- The spec-side membership tracker for an edit variable: true after a
successful `addEditVariable`, false after a successful `removeEditVariable`
or a `reset`, untouched by every other operation. -/
def trackEdit (v : Nat) (acc : Bool) (s : SolverState) : List Op → Bool
  | [] => acc
  | op :: rest =>
    let acc' :=
      match op with
      | Op.addEdit w st => if w = v ∧ (addEditVariable w st s).1 = none then true else acc
      | Op.removeEdit w =>
        if w = v ∧ (removeEditVariable w s).1 = none then false else acc
      | Op.resetOp => false
      | _ => acc
    trackEdit v acc' (stepOp s op) rest

/-- Strictly ascending keys: the well-formedness invariant of every
solver-owned association map (keys are unique and iteration order is the
key order). -/
def KeysAscN {V : Type} (l : List (Nat × V)) : Prop :=
  List.Pairwise (fun a b => a.1 < b.1) l

/-- The constraint `x >= 0` at required strength (`x` is variable 0). -/
def cnXge0 : UserCn := ⟨1, ⟨[(0, 1)], 0, RelOp.ge, Strength.required⟩⟩

/-- The constraint `x <= 100` at required strength, normalized as
`x - 100 <= 0`. -/
def cnXle100 : UserCn := ⟨2, ⟨[(0, 1)], -100, RelOp.le, Strength.required⟩⟩

/-- Solver state with `x >= 0` and `x <= 100` active. -/
def clampState0 : SolverState :=
  (addConstraint cnXle100 (addConstraint cnXge0 initState).2).2

/-- `clampState0` with `x` registered as an edit variable at strength
strong. -/
def clampState : SolverState := (addEditVariable 0 Strength.strong clampState0).2

/-- `clampState` after `suggestValue(x, 50)` and `updateVariables`. -/
def clampAt50 : SolverState := updateVariables (suggestValue 0 50 clampState).2

/-- `clampAt50` after `suggestValue(x, 150)` and `updateVariables`. -/
def clampAt150 : SolverState := updateVariables (suggestValue 0 150 clampAt50).2

/-- The constraint `x == 10` at required strength. -/
def cnXeq10 : UserCn := ⟨1, ⟨[(0, 1)], -10, RelOp.eq, Strength.required⟩⟩

/-- The constraint `x == 20` at required strength, a distinct constraint
object. -/
def cnXeq20 : UserCn := ⟨2, ⟨[(0, 1)], -20, RelOp.eq, Strength.required⟩⟩

/-- Solver state tracking `x == 10` (required). -/
def stateX10 : SolverState := (addConstraint cnXeq10 initState).2

/-- The constraint `x <= 10` at required strength. -/
def cnXle10 : UserCn := ⟨2, ⟨[(0, 1)], -10, RelOp.le, Strength.required⟩⟩

/-- Solver state with `x >= 0` and `x <= 10` active (both required). -/
def boxState : SolverState :=
  (addConstraint cnXle10 (addConstraint cnXge0 initState).2).2

/-- The constraint `x == 5` at weak strength, not tracked in `boxState`. -/
def cnXeq5weak : UserCn := ⟨3, ⟨[(0, 1)], -5, RelOp.eq, Strength.weak⟩⟩

/-- A small literal solver state exercising the diagnostic dump: one
tableau row, one constraint tag, one edit entry. -/
def dumpDemoState : SolverState :=
  ⟨⟨[(⟨SymTy.external, 1⟩, ⟨10, [(⟨SymTy.slack, 2⟩, -1)]⟩)], Row.zero, none, [],
      [(0, ⟨SymTy.external, 1⟩)], 5⟩,
    [(2, ⟨⟨SymTy.slack, 2⟩, Sym.nil⟩)],
    [(0, ⟨⟨⟨SymTy.error, 3⟩, ⟨SymTy.error, 4⟩⟩, Strength.strong, 0⟩)],
    fun _ => 0⟩

theorem lookupN_insertN {V : Type} (k key : Nat) (v : V) (l : List (Nat × V)) :
    lookupN k (insertN key v l) = if k = key then some v else lookupN k l := by
  induction l with
  | nil =>
    simp only [insertN, lookupN]
    rcases eq_or_ne k key with h | h
    · simp [h]
    · simp [h, Ne.symm h]
  | cons e rest ih =>
    simp only [insertN]
    rcases Nat.lt_trichotomy key e.1 with h1 | h1 | h1
    · simp only [if_pos h1, lookupN]
      rcases eq_or_ne k key with h | h
      · simp [h]
      · simp [h, Ne.symm h]
    · rw [if_neg (by omega), if_pos h1]
      simp only [lookupN]
      rcases eq_or_ne k key with h | h
      · simp [h]
      · simp [h, Ne.symm h, h1 ▸ (Ne.symm h)]
    · rw [if_neg (by omega), if_neg (by omega)]
      simp only [lookupN, ih]
      rcases eq_or_ne k key with h | h
      · simp [h, show ¬ e.1 = key by omega]
      · simp [h]

theorem mem_insertN {V : Type} {x : Nat × V} {k : Nat} {v : V} {l : List (Nat × V)}
    (h : x ∈ insertN k v l) : x = (k, v) ∨ x ∈ l := by
  induction l with
  | nil =>
    simp only [insertN] at h
    simp at h
    exact Or.inl h
  | cons e rest ih =>
    simp only [insertN] at h
    split at h
    · rcases List.mem_cons.mp h with h | h
      · exact Or.inl h
      · exact Or.inr h
    · split at h
      · rcases List.mem_cons.mp h with h | h
        · exact Or.inl h
        · exact Or.inr (List.mem_cons_of_mem _ h)
      · rcases List.mem_cons.mp h with h | h
        · exact Or.inr (h ▸ List.mem_cons_self _ _)
        · rcases ih h with h' | h'
          · exact Or.inl h'
          · exact Or.inr (List.mem_cons_of_mem _ h')

theorem keysAscN_insertN {V : Type} {l : List (Nat × V)} (k : Nat) (v : V)
    (h : KeysAscN l) : KeysAscN (insertN k v l) := by
  induction l with
  | nil => simp [KeysAscN, insertN]
  | cons e rest ih =>
    simp only [KeysAscN, List.pairwise_cons] at h
    obtain ⟨he, hrest⟩ := h
    simp only [insertN]
    split
    · rename_i h1
      simp only [KeysAscN, List.pairwise_cons]
      refine ⟨?_, he, hrest⟩
      intro x hx
      rcases List.mem_cons.mp hx with hx | hx
      · subst hx
        exact h1
      · have := he x hx
        omega
    · split
      · rename_i h1 h2
        simp only [KeysAscN, List.pairwise_cons]
        refine ⟨?_, hrest⟩
        intro x hx
        have := he x hx
        omega
      · rename_i h1 h2
        simp only [KeysAscN, List.pairwise_cons]
        refine ⟨?_, ih hrest⟩
        intro x hx
        rcases mem_insertN hx with h' | h'
        · subst h'
          simp only
          omega
        · exact he x h'

theorem mem_dropN {V : Type} {x : Nat × V} {k : Nat} {l : List (Nat × V)}
    (h : x ∈ dropN k l) : x ∈ l := by
  induction l with
  | nil => simp [dropN] at h
  | cons e rest ih =>
    simp only [dropN] at h
    split at h
    · exact List.mem_cons_of_mem _ h
    · rcases List.mem_cons.mp h with h | h
      · exact h ▸ List.mem_cons_self _ _
      · exact List.mem_cons_of_mem _ (ih h)

theorem keysAscN_dropN {V : Type} {l : List (Nat × V)} (k : Nat)
    (h : KeysAscN l) : KeysAscN (dropN k l) := by
  induction l with
  | nil => simp [KeysAscN, dropN]
  | cons e rest ih =>
    simp only [KeysAscN, List.pairwise_cons] at h
    obtain ⟨he, hrest⟩ := h
    simp only [dropN]
    split
    · exact hrest
    · simp only [KeysAscN, List.pairwise_cons]
      exact ⟨fun x hx => he x (mem_dropN hx), ih hrest⟩

theorem lookupN_eq_none {V : Type} {k : Nat} {l : List (Nat × V)}
    (h : ∀ x ∈ l, ¬ x.1 = k) : lookupN k l = none := by
  induction l with
  | nil => rfl
  | cons e rest ih =>
    simp only [lookupN]
    rw [if_neg (h e (List.mem_cons_self _ _))]
    exact ih (fun x hx => h x (List.mem_cons_of_mem _ hx))

theorem lookupN_dropN_self {V : Type} {k : Nat} {l : List (Nat × V)}
    (h : KeysAscN l) : lookupN k (dropN k l) = none := by
  induction l with
  | nil => rfl
  | cons e rest ih =>
    simp only [KeysAscN, List.pairwise_cons] at h
    obtain ⟨he, hrest⟩ := h
    simp only [dropN]
    split
    · rename_i hek
      refine lookupN_eq_none (fun x hx => ?_)
      have := he x hx
      omega
    · simp only [lookupN]
      rename_i hek
      rw [if_neg hek]
      exact ih hrest

theorem lookupN_dropN_ne {V : Type} {k key : Nat} (l : List (Nat × V))
    (h : ¬ k = key) : lookupN k (dropN key l) = lookupN k l := by
  induction l with
  | nil => rfl
  | cons e rest ih =>
    simp only [dropN]
    split
    · rename_i hek
      simp only [lookupN]
      rw [if_neg (by omega)]
    · simp only [lookupN]
      split
      · rfl
      · exact ih

theorem finishAdd_fst (f k : Nat) (tg : Tag) (subj : Sym) (row : Row) (t : Tab)
    (s : SolverState) : (finishAdd f k tg subj row t s).1 = none := rfl

theorem finishAdd_cns (f k : Nat) (tg : Tag) (subj : Sym) (row : Row) (t : Tab)
    (s : SolverState) : (finishAdd f k tg subj row t s).2.cns = insertN k tg s.cns := rfl

theorem finishAdd_edits (f k : Nat) (tg : Tag) (subj : Sym) (row : Row) (t : Tab)
    (s : SolverState) : (finishAdd f k tg subj row t s).2.edits = s.edits := rfl

/-- Branch analysis of `addCnCore`: either it succeeds, recording exactly
one new tag under the given identity key and leaving the edit map alone,
or it fails and returns the starting state unchanged. -/
theorem addCnCore_cases (f k : Nat) (d : CnData) (s : SolverState) :
    ((addCnCore f k d s).1 = none
      ∧ (∃ tg, (addCnCore f k d s).2.cns = insertN k tg s.cns)
      ∧ (addCnCore f k d s).2.edits = s.edits)
    ∨ (¬ (addCnCore f k d s).1 = none ∧ (addCnCore f k d s).2 = s) := by
  simp only [addCnCore]
  split
  · exact Or.inr (by simp)
  · split
    · split
      · exact Or.inr (by simp)
      · exact Or.inl ⟨finishAdd_fst .., ⟨_, finishAdd_cns ..⟩, finishAdd_edits ..⟩
    · split
      · split
        · exact Or.inl ⟨rfl, ⟨_, rfl⟩, rfl⟩
        · exact Or.inr (by simp)
      · exact Or.inl ⟨finishAdd_fst .., ⟨_, finishAdd_cns ..⟩, finishAdd_edits ..⟩

/-- `addCnCore` reports a duplicate exactly when the identity key is
already tracked. -/
theorem addCnCore_dup_iff (f k : Nat) (d : CnData) (s : SolverState) :
    (addCnCore f k d s).1 = some Err.duplicateConstraint ↔ hasCnKey s k = true := by
  simp only [addCnCore]
  split
  · simp_all
  · split
    · split
      · simp_all
      · simp_all [finishAdd_fst]
    · split
      · split
        · simp_all
        · simp_all
      · simp_all [finishAdd_fst]

/-- The only failures `addCnCore` can signal are the duplicate and the
unsatisfiable kinds. -/
theorem addCnCore_err_shape (f k : Nat) (d : CnData) (s : SolverState) (e : Err)
    (h : (addCnCore f k d s).1 = some e) :
    e = Err.duplicateConstraint ∨ e = Err.unsatisfiableConstraint := by
  simp only [addCnCore] at h
  split at h
  · exact Or.inl (by simpa using h.symm)
  · split at h
    · split at h
      · exact Or.inr (by simpa using h.symm)
      · simp [finishAdd_fst] at h
    · split at h
      · split at h
        · simp at h
        · exact Or.inr (by simpa using h.symm)
      · simp [finishAdd_fst] at h

/-- Branch analysis of `removeCnCore`: either the key is tracked and the
call succeeds, dropping exactly that key and leaving the edit map alone,
or the key is unknown and the starting state is returned unchanged. -/
theorem removeCnCore_cases (f k : Nat) (st : ℚ) (s : SolverState) :
    ((removeCnCore f k st s).1 = none
      ∧ (removeCnCore f k st s).2.cns = dropN k s.cns
      ∧ (removeCnCore f k st s).2.edits = s.edits
      ∧ ¬ lookupN k s.cns = none)
    ∨ ((removeCnCore f k st s).1 = some Err.unknownConstraint
      ∧ (removeCnCore f k st s).2 = s ∧ lookupN k s.cns = none) := by
  rcases hl : lookupN k s.cns with _ | tag
  · right
    simp [removeCnCore, hl]
  · left
    simp [removeCnCore, hl]

/-- A duplicate edit entry fails `addEditVariable` with the duplicate
kind, changing nothing. -/
theorem addEdit_dup (v : Nat) (st : ℚ) (s : SolverState)
    (h : hasEditVariableB s v = true) :
    addEditVariable v st s = (some Err.duplicateEditVariable, s) := by
  simp [addEditVariable, h]

/-- A (clipped) required strength fails `addEditVariable` with the
bad-required-strength kind, changing nothing. -/
theorem addEdit_badReq (v : Nat) (st : ℚ) (s : SolverState)
    (h : hasEditVariableB s v = false) (hr : Strength.required ≤ st) :
    addEditVariable v st s = (some Err.badRequiredStrength, s) := by
  have hclip : Strength.clip st = Strength.required := by
    unfold Strength.clip
    rcases lt_or_eq_of_le hr with h' | h'
    · rw [if_pos h']
    · rw [← h']
      simp
  simp [addEditVariable, h, hclip]

/-- Below required strength and with no duplicate, `addEditVariable`
succeeds, records exactly one edit entry for the variable, and touches the
constraint map only at the synthetic edit identity. -/
theorem addEdit_ok (v : Nat) (st : ℚ) (s : SolverState)
    (h : hasEditVariableB s v = false) (hs : st < Strength.required) :
    (addEditVariable v st s).1 = none
    ∧ (∃ info, (addEditVariable v st s).2.edits = insertN v info s.edits)
    ∧ ((∃ tg, (addEditVariable v st s).2.cns = insertN (cnKeyEdit v) tg s.cns)
        ∨ (addEditVariable v st s).2.cns = s.cns) := by
  have hclip : Strength.clip st = st := by
    unfold Strength.clip
    rw [if_neg (not_lt.mpr hs.le)]
  have hne : ¬ st = Strength.required := ne_of_lt hs
  simp only [addEditVariable, h, Bool.false_eq_true, if_false, hclip, hne,
    if_false]
  rcases addCnCore_cases defaultFuel (cnKeyEdit v) ⟨[(v, 1)], -(s.varValues v), RelOp.eq, st⟩ s
    with ⟨_, ⟨tg, hcns⟩, hedits⟩ | ⟨_, hstate⟩
  · exact ⟨trivial, ⟨_, by rw [hedits]⟩, Or.inl ⟨tg, hcns⟩⟩
  · exact ⟨trivial, ⟨_, by rw [hstate]⟩, Or.inr (by rw [hstate])⟩

/-- Branch analysis of `removeEditVariable`. -/
theorem removeEdit_cases (v : Nat) (s : SolverState) :
    ((removeEditVariable v s).1 = none
      ∧ (removeEditVariable v s).2.edits = dropN v s.edits
      ∧ ((removeEditVariable v s).2.cns = dropN (cnKeyEdit v) s.cns
          ∨ (removeEditVariable v s).2.cns = s.cns)
      ∧ ¬ lookupN v s.edits = none)
    ∨ ((removeEditVariable v s).1 = some Err.unknownEditVariable
      ∧ (removeEditVariable v s).2 = s ∧ lookupN v s.edits = none) := by
  rcases hl : lookupN v s.edits with _ | info
  · right
    simp [removeEditVariable, hl]
  · left
    simp only [removeEditVariable, hl]
    rcases removeCnCore_cases defaultFuel (cnKeyEdit v) info.strength s
      with ⟨_, hcns, hedits, _⟩ | ⟨_, hstate, _⟩
    · exact ⟨trivial, by rw [hedits], Or.inl (by rw [hcns]), by simp [hl]⟩
    · exact ⟨trivial, by rw [hstate], Or.inr (by rw [hstate]), by simp [hl]⟩

/-- Branch analysis of `suggestValue`: on success only the edit entry for
the variable and the tableau change; the constraint map is untouched. -/
theorem suggestValue_cases (v : Nat) (q : ℚ) (s : SolverState) :
    ((suggestValue v q s).1 = none
      ∧ (∃ info, (suggestValue v q s).2.edits = insertN v info s.edits)
      ∧ (suggestValue v q s).2.cns = s.cns
      ∧ ¬ lookupN v s.edits = none)
    ∨ ((suggestValue v q s).1 = some Err.unknownEditVariable
      ∧ (suggestValue v q s).2 = s ∧ lookupN v s.edits = none) := by
  rcases hl : lookupN v s.edits with _ | info
  · right
    simp [suggestValue, hl]
  · left
    refine ⟨by simp [suggestValue, hl], ⟨⟨info.tag, info.strength, q⟩, by simp [suggestValue, hl]⟩,
      by simp [suggestValue, hl], by simp [hl]⟩

theorem cnKeyUser_ne_edit (n v : Nat) : ¬ cnKeyUser n = cnKeyEdit v := by
  simp only [cnKeyUser, cnKeyEdit]
  omega

theorem stepFacts_addCn (c : UserCn) (s : SolverState) (i v : Nat)
    (hc : KeysAscN s.cns) (he : KeysAscN s.edits) :
    KeysAscN (addConstraint c s).2.cns ∧ KeysAscN (addConstraint c s).2.edits
    ∧ hasCnKey (addConstraint c s).2 (cnKeyUser i)
        = (if c.id = i ∧ (addConstraint c s).1 = none then true
           else hasCnKey s (cnKeyUser i))
    ∧ hasEditVariableB (addConstraint c s).2 v = hasEditVariableB s v := by
  rcases addCnCore_cases defaultFuel (cnKeyUser c.id) c.data s with
    ⟨h1, ⟨tg, hcns⟩, hedits⟩ | ⟨h1, h2⟩
  · have hcns' : (addConstraint c s).2.cns = insertN (cnKeyUser c.id) tg s.cns := hcns
    have hedits' : (addConstraint c s).2.edits = s.edits := hedits
    have h1' : (addConstraint c s).1 = none := h1
    refine ⟨?_, ?_, ?_, ?_⟩
    · rw [hcns']
      exact keysAscN_insertN _ _ hc
    · rw [hedits']
      exact he
    · simp only [hasCnKey, hcns', lookupN_insertN, h1']
      rcases eq_or_ne c.id i with hci | hci
      · subst hci
        simp
      · have hne : ¬ cnKeyUser i = cnKeyUser c.id := by
          simp only [cnKeyUser]
          omega
        simp [hne, hci]
    · simp [hasEditVariableB, hedits']
  · have h2' : (addConstraint c s).2 = s := h2
    have h1' : ¬ (addConstraint c s).1 = none := h1
    refine ⟨?_, ?_, ?_, ?_⟩
    · rw [h2']
      exact hc
    · rw [h2']
      exact he
    · simp [hasCnKey, h2', h1']
    · simp [hasEditVariableB, h2']

theorem stepFacts_removeCn (c : UserCn) (s : SolverState) (i v : Nat)
    (hc : KeysAscN s.cns) (he : KeysAscN s.edits) :
    KeysAscN (removeConstraint c s).2.cns ∧ KeysAscN (removeConstraint c s).2.edits
    ∧ hasCnKey (removeConstraint c s).2 (cnKeyUser i)
        = (if c.id = i ∧ (removeConstraint c s).1 = none then false
           else hasCnKey s (cnKeyUser i))
    ∧ hasEditVariableB (removeConstraint c s).2 v = hasEditVariableB s v := by
  rcases removeCnCore_cases defaultFuel (cnKeyUser c.id) c.data.strength s with
    ⟨h1, hcns, hedits, _⟩ | ⟨h1, h2, _⟩
  · have hcns' : (removeConstraint c s).2.cns = dropN (cnKeyUser c.id) s.cns := hcns
    have hedits' : (removeConstraint c s).2.edits = s.edits := hedits
    have h1' : (removeConstraint c s).1 = none := h1
    refine ⟨?_, ?_, ?_, ?_⟩
    · rw [hcns']
      exact keysAscN_dropN _ hc
    · rw [hedits']
      exact he
    · simp only [hasCnKey, hcns', h1']
      rcases eq_or_ne c.id i with hci | hci
      · subst hci
        simp [lookupN_dropN_self hc]
      · have hne : ¬ cnKeyUser i = cnKeyUser c.id := by
          simp only [cnKeyUser]
          omega
        simp [lookupN_dropN_ne _ hne, hci]
    · simp [hasEditVariableB, hedits']
  · have h2' : (removeConstraint c s).2 = s := h2
    have h1' : (removeConstraint c s).1 = some Err.unknownConstraint := h1
    refine ⟨?_, ?_, ?_, ?_⟩
    · rw [h2']
      exact hc
    · rw [h2']
      exact he
    · simp [hasCnKey, h2', h1']
    · simp [hasEditVariableB, h2']

theorem stepFacts_addEdit (w : Nat) (st : ℚ) (s : SolverState) (i v : Nat)
    (hc : KeysAscN s.cns) (he : KeysAscN s.edits) :
    KeysAscN (addEditVariable w st s).2.cns ∧ KeysAscN (addEditVariable w st s).2.edits
    ∧ hasCnKey (addEditVariable w st s).2 (cnKeyUser i) = hasCnKey s (cnKeyUser i)
    ∧ hasEditVariableB (addEditVariable w st s).2 v
        = (if w = v ∧ (addEditVariable w st s).1 = none then true
           else hasEditVariableB s v) := by
  by_cases hd : hasEditVariableB s w = true
  · rw [addEdit_dup w st s hd]
    simp only
    exact ⟨hc, he, trivial, by simp⟩
  · have hd' : hasEditVariableB s w = false := by simpa using hd
    by_cases hr : st < Strength.required
    · obtain ⟨h1, ⟨info, hedits⟩, hcnsOr⟩ := addEdit_ok w st s hd' hr
      refine ⟨?_, ?_, ?_, ?_⟩
      · rcases hcnsOr with ⟨tg, hcns⟩ | hcns
        · rw [hcns]
          exact keysAscN_insertN _ _ hc
        · rw [hcns]
          exact hc
      · rw [hedits]
        exact keysAscN_insertN _ _ he
      · rcases hcnsOr with ⟨tg, hcns⟩ | hcns
        · simp only [hasCnKey, hcns, lookupN_insertN]
          simp [cnKeyUser_ne_edit i w]
        · simp [hasCnKey, hcns]
      · simp only [hasEditVariableB, hedits, lookupN_insertN, h1]
        rcases eq_or_ne w v with hw | hw
        · subst hw
          simp
        · simp [hw, Ne.symm hw]
    · have hrr : Strength.required ≤ st := le_of_not_lt hr
      rw [addEdit_badReq w st s hd' hrr]
      simp only
      exact ⟨hc, he, trivial, by simp⟩

theorem stepFacts_removeEdit (w : Nat) (s : SolverState) (i v : Nat)
    (hc : KeysAscN s.cns) (he : KeysAscN s.edits) :
    KeysAscN (removeEditVariable w s).2.cns ∧ KeysAscN (removeEditVariable w s).2.edits
    ∧ hasCnKey (removeEditVariable w s).2 (cnKeyUser i) = hasCnKey s (cnKeyUser i)
    ∧ hasEditVariableB (removeEditVariable w s).2 v
        = (if w = v ∧ (removeEditVariable w s).1 = none then false
           else hasEditVariableB s v) := by
  rcases removeEdit_cases w s with ⟨h1, hedits, hcnsOr, _⟩ | ⟨h1, h2, _⟩
  · refine ⟨?_, ?_, ?_, ?_⟩
    · rcases hcnsOr with hcns | hcns
      · rw [hcns]
        exact keysAscN_dropN _ hc
      · rw [hcns]
        exact hc
    · rw [hedits]
      exact keysAscN_dropN _ he
    · rcases hcnsOr with hcns | hcns
      · simp only [hasCnKey, hcns]
        rw [lookupN_dropN_ne _ (cnKeyUser_ne_edit i w)]
      · simp [hasCnKey, hcns]
    · simp only [hasEditVariableB, hedits, h1]
      rcases eq_or_ne w v with hw | hw
      · subst hw
        simp [lookupN_dropN_self he]
      · simp [lookupN_dropN_ne _ (Ne.symm hw), hw]
  · refine ⟨?_, ?_, by simp [hasCnKey, h2], ?_⟩
    · rw [h2]
      exact hc
    · rw [h2]
      exact he
    · simp [hasEditVariableB, h2, h1]

theorem stepFacts_suggest (w : Nat) (q : ℚ) (s : SolverState) (i v : Nat)
    (hc : KeysAscN s.cns) (he : KeysAscN s.edits) :
    KeysAscN (suggestValue w q s).2.cns ∧ KeysAscN (suggestValue w q s).2.edits
    ∧ hasCnKey (suggestValue w q s).2 (cnKeyUser i) = hasCnKey s (cnKeyUser i)
    ∧ hasEditVariableB (suggestValue w q s).2 v = hasEditVariableB s v := by
  rcases suggestValue_cases w q s with ⟨h1, ⟨info, hedits⟩, hcns, hlk⟩ | ⟨h1, h2, _⟩
  · refine ⟨?_, ?_, by simp [hasCnKey, hcns], ?_⟩
    · rw [hcns]
      exact hc
    · rw [hedits]
      exact keysAscN_insertN _ _ he
    · simp only [hasEditVariableB, hedits, lookupN_insertN]
      rcases eq_or_ne v w with hw | hw
      · subst hw
        simp only [if_pos rfl, Option.isSome_some]
        cases hlv : lookupN v s.edits with
        | none => exact absurd hlv hlk
        | some x => simp
      · simp [hw]
  · refine ⟨?_, ?_, by simp [hasCnKey, h2], by simp [hasEditVariableB, h2]⟩
    · rw [h2]
      exact hc
    · rw [h2]
      exact he

/-- Master invariant: along any trace of public operations, constraint and
edit-variable membership evolve exactly as the spec-side trackers say. -/
theorem runOps_membership (ops : List Op) :
    ∀ (s : SolverState) (i v : Nat) (accC accE : Bool),
      KeysAscN s.cns → KeysAscN s.edits →
      accC = hasCnKey s (cnKeyUser i) → accE = hasEditVariableB s v →
      hasCnKey (runOps s ops) (cnKeyUser i) = trackCn i accC s ops
        ∧ hasEditVariableB (runOps s ops) v = trackEdit v accE s ops := by
  induction ops with
  | nil =>
    intro s i v accC accE hc he hC hE
    simp [runOps, trackCn, trackEdit, hC, hE]
  | cons op rest ih =>
    intro s i v accC accE hc he hC hE
    cases op with
    | addCn c =>
      obtain ⟨k1, k2, k3, k4⟩ := stepFacts_addCn c s i v hc he
      simp only [runOps, trackCn, trackEdit, stepOp]
      exact ih _ i v _ _ k1 k2 (by rw [k3, hC]) (by rw [k4, hE])
    | removeCn c =>
      obtain ⟨k1, k2, k3, k4⟩ := stepFacts_removeCn c s i v hc he
      simp only [runOps, trackCn, trackEdit, stepOp]
      exact ih _ i v _ _ k1 k2 (by rw [k3, hC]) (by rw [k4, hE])
    | hasCn c =>
      simp only [runOps, trackCn, trackEdit, stepOp]
      exact ih _ i v _ _ hc he hC hE
    | addEdit w st =>
      obtain ⟨k1, k2, k3, k4⟩ := stepFacts_addEdit w st s i v hc he
      simp only [runOps, trackCn, trackEdit, stepOp]
      exact ih _ i v _ _ k1 k2 (by rw [k3, hC]) (by rw [k4, hE])
    | removeEdit w =>
      obtain ⟨k1, k2, k3, k4⟩ := stepFacts_removeEdit w s i v hc he
      simp only [runOps, trackCn, trackEdit, stepOp]
      exact ih _ i v _ _ k1 k2 (by rw [k3, hC]) (by rw [k4, hE])
    | hasEdit w =>
      simp only [runOps, trackCn, trackEdit, stepOp]
      exact ih _ i v _ _ hc he hC hE
    | suggest w q =>
      obtain ⟨k1, k2, k3, k4⟩ := stepFacts_suggest w q s i v hc he
      simp only [runOps, trackCn, trackEdit, stepOp]
      exact ih _ i v _ _ k1 k2 (by rw [k3, hC]) (by rw [k4, hE])
    | update =>
      simp only [runOps, trackCn, trackEdit, stepOp]
      exact ih _ i v _ _ hc he hC hE
    | resetOp =>
      simp only [runOps, trackCn, trackEdit, stepOp]
      refine ih _ i v _ _ ?_ ?_ ?_ ?_
      · simp [reset, initState, KeysAscN]
      · simp [reset, initState, KeysAscN]
      · simp [reset, initState, hasCnKey, lookupN]
      · simp [reset, initState, hasEditVariableB, lookupN]
    | dumpsOp =>
      simp only [runOps, trackCn, trackEdit, stepOp]
      exact ih _ i v _ _ hc he hC hE

theorem writeVars_of_absent (rows : List (Sym × Row)) (l : List (Nat × Sym))
    (f : Nat → ℚ) (v : Nat) (h : ∀ e ∈ l, ¬ e.1 = v) :
    writeVars rows l f v = f v := by
  induction l generalizing f with
  | nil => rfl
  | cons e rest ih =>
    simp only [writeVars]
    rw [ih _ (fun x hx => h x (List.mem_cons_of_mem _ hx))]
    have : ¬ v = e.1 := fun hv => h e (List.mem_cons_self _ _) hv.symm
    simp [this]

theorem writeVars_of_mem (rows : List (Sym × Row)) (l : List (Nat × Sym))
    (f : Nat → ℚ) (v : Nat) (sym : Sym)
    (hnd : List.Pairwise (fun a b => ¬ a.1 = b.1) l)
    (hmem : (v, sym) ∈ l) : writeVars rows l f v = varVal rows sym := by
  induction l generalizing f with
  | nil => cases hmem
  | cons e rest ih =>
    simp only [List.pairwise_cons] at hnd
    obtain ⟨hhead, htail⟩ := hnd
    rcases List.mem_cons.mp hmem with h | h
    · have he : e = (v, sym) := h.symm
      subst he
      simp only [writeVars]
      rw [writeVars_of_absent _ _ _ _ (fun x hx hv => hhead x hx hv.symm)]
      simp
    · exact ih _ htail h

theorem mem_insSorted {α : Type} (key : α → Nat) (a x : α) {l : List α}
    (h : x ∈ insSorted key a l) : x = a ∨ x ∈ l := by
  induction l with
  | nil =>
    simp only [insSorted] at h
    simp at h
    exact Or.inl h
  | cons b rest ih =>
    simp only [insSorted] at h
    split at h
    · rcases List.mem_cons.mp h with h | h
      · exact Or.inl h
      · exact Or.inr h
    · rcases List.mem_cons.mp h with h | h
      · exact Or.inr (h ▸ List.mem_cons_self _ _)
      · rcases ih h with h' | h'
        · exact Or.inl h'
        · exact Or.inr (List.mem_cons_of_mem _ h')

theorem mem_insSorted_of_mem {α : Type} (key : α → Nat) (a x : α) {l : List α}
    (h : x ∈ l) : x ∈ insSorted key a l := by
  induction l with
  | nil => cases h
  | cons b rest ih =>
    simp only [insSorted]
    split
    · exact List.mem_cons_of_mem _ h
    · rcases List.mem_cons.mp h with h | h
      · exact h ▸ List.mem_cons_self _ _
      · exact List.mem_cons_of_mem _ (ih h)

theorem self_mem_insSorted {α : Type} (key : α → Nat) (a : α) (l : List α) :
    a ∈ insSorted key a l := by
  induction l with
  | nil => simp [insSorted]
  | cons b rest ih =>
    simp only [insSorted]
    split
    · exact List.mem_cons_self _ _
    · exact List.mem_cons_of_mem _ ih

theorem mem_sortByKey {α : Type} (key : α → Nat) {x : α} {l : List α}
    (h : x ∈ l) : x ∈ sortByKey key l := by
  induction l with
  | nil => cases h
  | cons b rest ih =>
    simp only [sortByKey]
    rcases List.mem_cons.mp h with h | h
    · exact h ▸ self_mem_insSorted key b _
    · exact mem_insSorted_of_mem key b x (ih h)

theorem pairwise_insSorted {α : Type} (key : α → Nat) (a : α) {l : List α}
    (h : List.Pairwise (fun x y => key x ≤ key y) l) :
    List.Pairwise (fun x y => key x ≤ key y) (insSorted key a l) := by
  induction l with
  | nil => simp [insSorted]
  | cons b rest ih =>
    simp only [List.pairwise_cons] at h
    obtain ⟨hb, hrest⟩ := h
    simp only [insSorted]
    split
    · rename_i hab
      simp only [List.pairwise_cons]
      refine ⟨?_, hb, hrest⟩
      intro x hx
      rcases List.mem_cons.mp hx with hx | hx
      · exact hx ▸ hab
      · exact le_trans hab (hb x hx)
    · rename_i hab
      simp only [List.pairwise_cons]
      refine ⟨?_, ih hrest⟩
      intro x hx
      rcases mem_insSorted key a x hx with hx | hx
      · subst hx
        omega
      · exact hb x hx

theorem pairwise_sortByKey {α : Type} (key : α → Nat) (l : List α) :
    List.Pairwise (fun x y => key x ≤ key y) (sortByKey key l) := by
  induction l with
  | nil => simp [sortByKey]
  | cons b rest ih =>
    simp only [sortByKey]
    exact pairwise_insSorted key b ih

theorem qAdd_eq (a b : ℚ) : qAdd a b = a + b := by
  have ha : (a.den : Int) ≠ 0 := Int.ofNat_ne_zero.mpr a.den_nz
  have hb : (b.den : Int) ≠ 0 := Int.ofNat_ne_zero.mpr b.den_nz
  rw [qAdd]
  conv_rhs => rw [← Rat.num_divInt_den a, ← Rat.num_divInt_den b]
  rw [Rat.divInt_add_divInt _ _ ha hb]

theorem qMul_eq (a b : ℚ) : qMul a b = a * b := by
  have ha : (a.den : Int) ≠ 0 := Int.ofNat_ne_zero.mpr a.den_nz
  have hb : (b.den : Int) ≠ 0 := Int.ofNat_ne_zero.mpr b.den_nz
  rw [qMul]
  conv_rhs => rw [← Rat.num_divInt_den a, ← Rat.num_divInt_den b]
  rw [Rat.divInt_mul_divInt _ _ ha hb]

theorem qDiv_eq (a b : ℚ) : qDiv a b = a / b := by
  have ha : (a.den : Int) ≠ 0 := Int.ofNat_ne_zero.mpr a.den_nz
  rcases eq_or_ne b.num 0 with hb | hb
  · have hb0 : b = 0 := by
      rwa [Rat.num_eq_zero] at hb
    subst hb0
    simp [qDiv]
  · rw [qDiv, Rat.div_def, Rat.inv_def]
    conv_rhs => rw [← Rat.num_divInt_den a]
    rw [Rat.divInt_mul_divInt _ _ ha hb]

/-- C1: whenever addConstraint fails with UnsatisfiableConstraint, the
solver state after the failed call is exactly the state before the call —
no row, symbol, tag or objective change is visible (full rollback of any
partial insertions). -/
theorem C1_unsat_rollback (s : SolverState) (c : UserCn)
    (h : (addConstraint c s).1 = some Err.unsatisfiableConstraint) :
    (addConstraint c s).2 = s := by
  rcases addCnCore_cases defaultFuel (cnKeyUser c.id) c.data s with ⟨h1, _, _⟩ | ⟨_, h2⟩
  · rw [show (addConstraint c s).1 = none from h1] at h
    cases h
  · exact h2

theorem C1_unsat_rollback_witness :
    (addConstraint cnXeq20 stateX10).1 = some Err.unsatisfiableConstraint
    ∧ (addConstraint cnXeq20 stateX10).2 = stateX10 :=
  ⟨by decide, C1_unsat_rollback stateX10 cnXeq20 (by decide)⟩

/-- C2: addConstraint fails with DuplicateConstraint exactly when the
constraint is already tracked; when it is not tracked, the call either
succeeds or fails with UnsatisfiableConstraint — no other failure kind is
possible. -/
theorem C2_addConstraint_failure_kinds (s : SolverState) (c : UserCn) :
    ((addConstraint c s).1 = some Err.duplicateConstraint
        ↔ hasConstraintB s c = true)
    ∧ (hasConstraintB s c = false →
        (addConstraint c s).1 = none
          ∨ (addConstraint c s).1 = some Err.unsatisfiableConstraint) := by
  constructor
  · exact addCnCore_dup_iff defaultFuel (cnKeyUser c.id) c.data s
  · intro hf
    cases he : (addConstraint c s).1 with
    | none => exact Or.inl rfl
    | some e =>
      rcases addCnCore_err_shape defaultFuel (cnKeyUser c.id) c.data s e
          (show (addCnCore defaultFuel (cnKeyUser c.id) c.data s).1 = some e from he)
        with h | h
      · subst h
        have ht := (addCnCore_dup_iff defaultFuel (cnKeyUser c.id) c.data s).mp
          (show (addCnCore defaultFuel (cnKeyUser c.id) c.data s).1
              = some Err.duplicateConstraint from he)
        have hf' : hasCnKey s (cnKeyUser c.id) = false := hf
        rw [ht] at hf'
        cases hf'
      · exact Or.inr (by rw [h])

theorem C2_addConstraint_failure_kinds_witness :
    hasConstraintB initState cnXeq10 = false
    ∧ ((addConstraint cnXeq10 initState).1 = none
        ∨ (addConstraint cnXeq10 initState).1 = some Err.unsatisfiableConstraint) :=
  ⟨by decide, (C2_addConstraint_failure_kinds initState cnXeq10).2 (by decide)⟩

/-- C3: addEditVariable fails with DuplicateEditVariable when an edit entry
for the variable is already present, fails with BadRequiredStrength when
the (clipped) strength is the required sentinel, and otherwise succeeds
and records the edit entry. -/
theorem C3_addEditVariable_failures (s : SolverState) (v : Nat) (st : ℚ) :
    (hasEditVariableB s v = true →
        addEditVariable v st s = (some Err.duplicateEditVariable, s))
    ∧ (hasEditVariableB s v = false → Strength.required ≤ st →
        addEditVariable v st s = (some Err.badRequiredStrength, s))
    ∧ (hasEditVariableB s v = false → st < Strength.required →
        (addEditVariable v st s).1 = none
          ∧ (∃ info, (addEditVariable v st s).2.edits = insertN v info s.edits)
          ∧ hasEditVariableB (addEditVariable v st s).2 v = true) := by
  refine ⟨fun h => addEdit_dup v st s h, fun h hr => addEdit_badReq v st s h hr,
    fun h hs => ?_⟩
  obtain ⟨h1, ⟨info, hedits⟩, _⟩ := addEdit_ok v st s h hs
  refine ⟨h1, ⟨info, hedits⟩, ?_⟩
  simp [hasEditVariableB, hedits, lookupN_insertN]

theorem C3_addEditVariable_failures_witness :
    hasEditVariableB initState 0 = false
    ∧ Strength.strong < Strength.required
    ∧ ((addEditVariable 0 Strength.strong initState).1 = none
        ∧ (∃ info, (addEditVariable 0 Strength.strong initState).2.edits
            = insertN 0 info initState.edits)
        ∧ hasEditVariableB (addEditVariable 0 Strength.strong initState).2 0 = true) :=
  ⟨by decide, by decide,
    (C3_addEditVariable_failures initState 0 Strength.strong).2.2 (by decide) (by decide)⟩

/-- C4: updateVariables writes each tracked external variable's value from
the constant of the row whose basic symbol represents that variable, and
writes 0 when the variable's symbol has no row; it signals no failure (it
is a total function on solver states). -/
theorem C4_updateVariables_writes (s : SolverState) (v : Nat) (sym : Sym)
    (hnd : List.Pairwise (fun a b => ¬ a.1 = b.1) s.tab.vars)
    (hmem : (v, sym) ∈ s.tab.vars) :
    (updateVariables s).varValues v
      = (match lookupRow sym s.tab.rows with
         | some r => r.constant
         | none => 0) := by
  show writeVars s.tab.rows s.tab.vars s.varValues v = _
  rw [writeVars_of_mem _ _ _ _ _ hnd hmem]
  rfl

theorem C4_updateVariables_writes_witness :
    List.Pairwise (fun a b => ¬ a.1 = b.1) stateX10.tab.vars
    ∧ ((0 : Nat), (⟨SymTy.external, 1⟩ : Sym)) ∈ stateX10.tab.vars
    ∧ (updateVariables stateX10).varValues 0
        = (match lookupRow ⟨SymTy.external, 1⟩ stateX10.tab.rows with
           | some r => r.constant
           | none => 0) :=
  ⟨by decide, by decide,
    C4_updateVariables_writes stateX10 0 ⟨SymTy.external, 1⟩ (by decide) (by decide)⟩

/-- C6: after any sequence of public operations from the initial state,
hasConstraint returns true exactly for constraints that were successfully
added and not since removed or cleared by reset, and hasEditVariable
likewise for edit variables; membership keys on the constraint's identity
(`UserCn.id`), never its structure. -/
theorem C6_membership_trace (ops : List Op) (c : UserCn) (v : Nat) :
    hasConstraintB (runOps initState ops) c = trackCn c.id false initState ops
    ∧ hasEditVariableB (runOps initState ops) v
        = trackEdit v false initState ops := by
  refine runOps_membership ops initState c.id v false false ?_ ?_ ?_ ?_
  · simp [initState, KeysAscN]
  · simp [initState, KeysAscN]
  · simp [initState, hasCnKey, lookupN]
  · simp [initState, hasEditVariableB, lookupN]

/-- C7: with required constraints `x >= 0` and `x <= 100` active and `x`
registered as an edit variable at strength strong, suggestValue(x, 50)
followed by updateVariables yields x = 50, and suggestValue(x, 150)
followed by updateVariables yields x = 100: the suggestion is clamped by
the required upper bound. -/
theorem C7_suggest_clamped :
    (addConstraint cnXge0 initState).1 = none
    ∧ (addConstraint cnXle100 (addConstraint cnXge0 initState).2).1 = none
    ∧ (addEditVariable 0 Strength.strong clampState0).1 = none
    ∧ (suggestValue 0 50 clampState).1 = none
    ∧ clampAt50.varValues 0 = 50
    ∧ (suggestValue 0 150 clampAt50).1 = none
    ∧ clampAt150.varValues 0 = 100 := by
  refine ⟨?_, ?_, ?_, ?_, ?_, ?_, ?_⟩ <;> decide

/-- C8: dumps is a pure function of the internal solver state (two calls
on identical state give identical text), and the dump lines enumerate
every tableau row, every constraint's Tag, and every edit variable's
EditInfo, with the row section in ascending symbol-generation order. -/
theorem C8_dumps_deterministic (s1 s2 : SolverState) (e : Sym × Row)
    (g : Nat × Tag) (d : Nat × EditInfo)
    (h12 : s1 = s2) (he : e ∈ s1.tab.rows) (hg : g ∈ s1.cns) (hd : d ∈ s1.edits) :
    dumps s1 = dumps s2
    ∧ renderRowEntry e ∈ dumpLines s1
    ∧ renderTagEntry g ∈ dumpLines s1
    ∧ renderEditEntry d ∈ dumpLines s1
    ∧ List.Pairwise (· ≤ ·)
        ((sortByKey (fun x : Sym × Row => x.1.id) s1.tab.rows).map
          (fun x => x.1.id)) := by
  refine ⟨by rw [h12], ?_, ?_, ?_, ?_⟩
  · simp only [dumpLines, List.mem_append]
    exact Or.inl (Or.inl (List.mem_map_of_mem _ (mem_sortByKey _ he)))
  · simp only [dumpLines, List.mem_append]
    exact Or.inl (Or.inr (List.mem_map_of_mem _ (mem_sortByKey _ hg)))
  · simp only [dumpLines, List.mem_append]
    exact Or.inr (List.mem_map_of_mem _ (mem_sortByKey _ hd))
  · rw [List.pairwise_map]
    exact pairwise_sortByKey _ _

theorem C8_dumps_deterministic_witness :
    dumpDemoState = dumpDemoState
    ∧ ((⟨⟨SymTy.external, 1⟩, ⟨10, [(⟨SymTy.slack, 2⟩, -1)]⟩⟩ : Sym × Row)
        ∈ dumpDemoState.tab.rows)
    ∧ (((2 : Nat), (⟨⟨SymTy.slack, 2⟩, Sym.nil⟩ : Tag)) ∈ dumpDemoState.cns)
    ∧ (((0 : Nat), (⟨⟨⟨SymTy.error, 3⟩, ⟨SymTy.error, 4⟩⟩, Strength.strong, 0⟩ : EditInfo))
        ∈ dumpDemoState.edits)
    ∧ (dumps dumpDemoState = dumps dumpDemoState
        ∧ renderRowEntry ⟨⟨SymTy.external, 1⟩, ⟨10, [(⟨SymTy.slack, 2⟩, -1)]⟩⟩
            ∈ dumpLines dumpDemoState
        ∧ renderTagEntry (2, ⟨⟨SymTy.slack, 2⟩, Sym.nil⟩) ∈ dumpLines dumpDemoState
        ∧ renderEditEntry (0, ⟨⟨⟨SymTy.error, 3⟩, ⟨SymTy.error, 4⟩⟩, Strength.strong, 0⟩)
            ∈ dumpLines dumpDemoState
        ∧ List.Pairwise (· ≤ ·)
            ((sortByKey (fun x : Sym × Row => x.1.id) dumpDemoState.tab.rows).map
              (fun x => x.1.id))) :=
  ⟨rfl, by decide, by decide, by decide,
    C8_dumps_deterministic dumpDemoState dumpDemoState _ _ _ rfl (by decide) (by decide)
      (by decide)⟩

/-- C9: hasConstraint takes a constraint, returns a bool, and has no
failure kinds: it always completes successfully with true or false, and
leaves the state untouched. -/
theorem C9_hasConstraint_total (s : SolverState) (c : UserCn) :
    (hasConstraintOp c s).1 = none
    ∧ (hasConstraintOp c s).2.1 = s
    ∧ ((hasConstraintOp c s).2.2 = true ∨ (hasConstraintOp c s).2.2 = false) := by
  refine ⟨rfl, rfl, ?_⟩
  cases h : (hasConstraintOp c s).2.2
  · exact Or.inr rfl
  · exact Or.inl rfl

/-- C10: constructing a Solver accepts no arguments — any positional or
keyword argument makes Solver.__new__ fail with a type error, while a call
with no arguments yields a solver in the initial empty state. -/
theorem C10_solverNew_args (na : Nat) (k : Option Nat) :
    ((¬ na = 0 ∨ ¬ k.getD 0 = 0) →
        solverNew na k = Except.error "Solver.__new__ takes no arguments")
    ∧ solverNew 0 none = Except.ok initState
    ∧ solverNew 0 (some 0) = Except.ok initState := by
  refine ⟨?_, rfl, rfl⟩
  intro h
  unfold solverNew
  rw [if_pos]
  exact h

theorem C10_solverNew_args_witness :
    (¬ (1 : Nat) = 0 ∨ ¬ (none : Option Nat).getD 0 = 0)
    ∧ solverNew 1 none = Except.error "Solver.__new__ takes no arguments" :=
  ⟨Or.inl (by decide), (C10_solverNew_args 1 none).1 (Or.inl (by decide))⟩

theorem dropN_insertN_fresh {V : Type} (k : Nat) (v : V) {l : List (Nat × V)}
    (h : lookupN k l = none) : dropN k (insertN k v l) = l := by
  induction l with
  | nil => simp [insertN, dropN]
  | cons e rest ih =>
    simp only [lookupN] at h
    split at h
    · cases h
    · rename_i hek
      simp only [insertN]
      rcases Nat.lt_trichotomy k e.1 with h1 | h1 | h1
      · rw [if_pos h1]
        simp [dropN]
      · omega
      · rw [if_neg (by omega), if_neg (by omega)]
        simp only [dropN]
        rw [if_neg (by omega)]
        rw [ih h]

/-- C5 counterexample: in the state tracking `x >= 0` and `x <= 10` (both
required), adding the untracked constraint `x == 5` (weak) and immediately
removing it succeeds, yet moves the solved value of `x` from 0 to 10: the
removal pivot lands on a different vertex of the same feasible region, so
the resulting state is not observationally equivalent to the original. -/
theorem C5_addRemove_counterexample :
    hasConstraintB boxState cnXeq5weak = false
    ∧ (addConstraint cnXeq5weak boxState).1 = none
    ∧ (removeConstraint cnXeq5weak (addConstraint cnXeq5weak boxState).2).1 = none
    ∧ (updateVariables boxState).varValues 0 = 0
    ∧ (updateVariables
          (removeConstraint cnXeq5weak (addConstraint cnXeq5weak boxState).2).2).varValues 0
        = 10 := by
  refine ⟨?_, ?_, ?_, ?_, ?_⟩ <;> decide

/-- C5 amended: for every solver state and every untracked constraint
whose add succeeds, the immediate removal also succeeds and exactly
restores the solver's bookkeeping — the constraint map and the edit map
are the ones of the original state, so the add/remove pair is invisible to
hasConstraint and hasEditVariable.  Observational equivalence of solved
values does not hold (see the counterexample): the tableau may settle on a
different vertex of the same feasible region. -/
theorem C5_addRemove_restores_membership (s : SolverState) (c : UserCn)
    (hnt : hasConstraintB s c = false)
    (hadd : (addConstraint c s).1 = none) :
    (removeConstraint c (addConstraint c s).2).1 = none
    ∧ (removeConstraint c (addConstraint c s).2).2.cns = s.cns
    ∧ (removeConstraint c (addConstraint c s).2).2.edits = s.edits
    ∧ hasConstraintB (removeConstraint c (addConstraint c s).2).2 c
        = hasConstraintB s c := by
  rcases addCnCore_cases defaultFuel (cnKeyUser c.id) c.data s with
    ⟨h1, ⟨tg, hcns⟩, hedits⟩ | ⟨h1, _⟩
  · have hs1 : (addConstraint c s).2.cns = insertN (cnKeyUser c.id) tg s.cns := hcns
    have hlk : lookupN (cnKeyUser c.id) (addConstraint c s).2.cns = some tg := by
      rw [hs1, lookupN_insertN]
      simp
    rcases removeCnCore_cases defaultFuel (cnKeyUser c.id) c.data.strength
        (addConstraint c s).2 with ⟨r1, rcns, redits, _⟩ | ⟨_, _, rlk⟩
    · have hfresh : lookupN (cnKeyUser c.id) s.cns = none := by
        have : (lookupN (cnKeyUser c.id) s.cns).isSome = false := hnt
        cases hl : lookupN (cnKeyUser c.id) s.cns
        · rfl
        · rw [hl] at this
          cases this
      have hc2 : (removeConstraint c (addConstraint c s).2).2.cns = s.cns := by
        rw [show (removeConstraint c (addConstraint c s).2).2.cns
            = dropN (cnKeyUser c.id) (addConstraint c s).2.cns from rcns, hs1,
          dropN_insertN_fresh _ _ hfresh]
      refine ⟨r1, hc2, ?_, ?_⟩
      · rw [show (removeConstraint c (addConstraint c s).2).2.edits
            = (addConstraint c s).2.edits from redits]
        exact hedits
      · simp only [hasConstraintB, hasCnKey, hc2]
    · rw [hlk] at rlk
      cases rlk
  · exact absurd hadd (by
      rw [show (addConstraint c s).1
          = (addCnCore defaultFuel (cnKeyUser c.id) c.data s).1 from rfl]
      exact h1)

theorem C5_addRemove_restores_membership_witness :
    hasConstraintB boxState cnXeq5weak = false
    ∧ (addConstraint cnXeq5weak boxState).1 = none
    ∧ ((removeConstraint cnXeq5weak (addConstraint cnXeq5weak boxState).2).1 = none
        ∧ (removeConstraint cnXeq5weak (addConstraint cnXeq5weak boxState).2).2.cns
            = boxState.cns
        ∧ (removeConstraint cnXeq5weak (addConstraint cnXeq5weak boxState).2).2.edits
            = boxState.edits
        ∧ hasConstraintB (removeConstraint cnXeq5weak
              (addConstraint cnXeq5weak boxState).2).2 cnXeq5weak
            = hasConstraintB boxState cnXeq5weak) :=
  ⟨by decide, by decide,
    C5_addRemove_restores_membership boxState cnXeq5weak (by decide) (by decide)⟩
